import Mathlib

/-!
Shallow embedding of the tool-calling convergence loop of HW1/main.py and
the readability tool of HW3/mcp-server.py, with theorems checking the
specification's claims about them.

The external chat-completion service is modelled as an oracle
`engine : Nat → EngineMsg` giving the assistant message returned by the
i-th `chat.completions.create` call of a run.  JSON parsing of a tool
call's argument string (`json.loads` at line 92) happens at that boundary,
so a `ToolCallRequest` carries the already-parsed keyword arguments; the
re-serialization `json.dumps` (lines 110 and 120) is embedded concretely.
Uncaught Python exceptions (`KeyError` from the registry lookup at line 97,
`TypeError` from a keyword-argument mismatch at line 98, and the
`Exception` raised at line 123) are modelled as error outcomes of the run.
-/

namespace HW1

/-- A product record of `MOCK_DB` (src/HW1/main.py lines 13-17). -/
structure Product where
  name : String
  description : String
  price : Rat
deriving DecidableEq

/-- `MOCK_DB` (lines 13-17), as an association list from product id to
record; the source's decimal prices 59.99, 129.99 and 89.99 are the exact
rationals below. -/
def MOCK_DB : List (String × Product) :=
  [("101", ⟨"Bluetooth Speaker", "Portable speaker with deep bass", mkRat 5999 100⟩),
   ("202", ⟨"Noise Cancelling Headphones", "High fidelity wireless ANC headphones",
     mkRat 12999 100⟩),
   ("303", ⟨"Smart Fitness Watch", "Tracks heart rate, sleep, and activity", mkRat 8999 100⟩)]

/-- `MOCK_DISCOUNTS` (lines 19-23). -/
def MOCK_DISCOUNTS : List (String × Nat) :=
  [("101", 50), ("202", 20), ("303", 15)]

/-- A value returned by one of the registered tool functions; the loop
serializes it with `json.dumps` into the tool message content (line 120). -/
inductive ToolResult where
  | product (p : Product)
  | errorMsg (msg : String)
  | discount (pct : Nat)
deriving DecidableEq

/-- `get_product_info` (lines 25-27).  `MOCK_DB.get` is the association
lookup; a present record is a non-empty dict, hence truthy in the source's
`product if product else`, so the two source branches are exactly the two
cases of the lookup. -/
def get_product_info (product_id : String) : ToolResult :=
  match MOCK_DB.lookup product_id with
  | some product => .product product
  | none => .errorMsg "Product not found"

/-- `get_discount` (lines 29-31).  The source tests `discount is not None`,
so a stored discount of any value (even zero) is returned as is, and an
absent key yields the same zero payload. -/
def get_discount (product_id : String) : ToolResult :=
  match MOCK_DISCOUNTS.lookup product_id with
  | some discount => .discount discount
  | none => .discount 0

/-- Parsed keyword arguments of a tool call: `json.loads` of the request's
argument string gives a mapping from parameter name to (string) value. -/
abbrev FnArgs := List (String × String)

/-- One tool call of an engine response (`tool_call.id`,
`tool_call.function.name`, and the parse of `tool_call.function.arguments`). -/
structure ToolCallRequest where
  id : String
  name : String
  args : FnArgs
deriving DecidableEq

/-- The assistant message returned by one `chat.completions.create` call
(`response.choices[0].message`); an absent `tool_calls` field is the empty
list, matching the source's falsiness test `if not msg.tool_calls`. -/
structure EngineMsg where
  content : Option String
  tool_calls : List ToolCallRequest
deriving DecidableEq

/-- Applying `get_product_info` to parsed keyword arguments
(`function_to_call(**function_args)` at line 98): the call succeeds exactly
when the arguments bind precisely the parameter `product_id`; any other
argument set raises `TypeError` in Python, modelled as `none`. -/
def call_get_product_info : FnArgs → Option ToolResult
  | [("product_id", p)] => some (get_product_info p)
  | _ => none

/-- Applying `get_discount` to parsed keyword arguments, as for
`call_get_product_info`. -/
def call_get_discount : FnArgs → Option ToolResult
  | [("product_id", p)] => some (get_discount p)
  | _ => none

/-- `available_functions` (lines 70-73): the dict from tool name to
function.  `none` models the `KeyError` raised by the subscript at line 97
for an unregistered name. -/
def available_functions (name : String) : Option (FnArgs → Option ToolResult) :=
  if name = "get_product_info" then some call_get_product_info
  else if name = "get_discount" then some call_get_discount
  else none

/-- `json.dumps` of a mapping from string to string, as produced for the
re-serialized `function_args` at line 110. -/
def dumpArgs (args : FnArgs) : String :=
  "\x7b" ++ String.intercalate ", "
    (args.map (fun kv => "\"" ++ kv.1 ++ "\": \"" ++ kv.2 ++ "\"")) ++ "\x7d"

/-- Decimal rendering of the two-decimal prices of `MOCK_DB`, as
`json.dumps` prints them. -/
def priceStr (q : Rat) : String :=
  let c : Int := q.num * 100 / (q.den : Int)
  toString (c / 100) ++ "." ++ (if c % 100 < 10 then "0" else "") ++ toString (c % 100)

/-- `json.dumps` of a tool function result (line 120). -/
def dumpResult : ToolResult → String
  | .product p =>
      "\x7b\"name\": \"" ++ p.name ++ "\", \"description\": \"" ++ p.description ++
        "\", \"price\": " ++ priceStr p.price ++ "\x7d"
  | .errorMsg e => "\x7b\"error\": \"" ++ e ++ "\"\x7d"
  | .discount d => "\x7b\"discount_percentage\": " ++ toString d ++ "\x7d"

/-- A tool call as recorded inside an appended assistant message
(lines 104-113): the id, the function name and the serialized arguments. -/
structure SerializedToolCall where
  id : String
  name : String
  arguments : String
deriving DecidableEq

/-- One entry of the `messages` list.  System, user and engine-facing
fields of the dicts appended at lines 102-121 and of the initial prompts
(lines 125-128). -/
structure Message where
  role : String
  content : Option String
  tool_calls : List SerializedToolCall
  tool_call_id : Option String
  name : Option String
deriving DecidableEq

/-- The assistant message appended at lines 102-114: a fresh message
carrying exactly the single tool call being processed, with its arguments
re-serialized by `json.dumps`. -/
def assistantFrag (tc : ToolCallRequest) : Message :=
  ⟨"assistant", none, [⟨tc.id, tc.name, dumpArgs tc.args⟩], none, none⟩

/-- The tool message appended at lines 116-121. -/
def toolMsg (tc : ToolCallRequest) (res : ToolResult) : Message :=
  ⟨"tool", some (dumpResult res), [], some tc.id, some tc.name⟩

/-- An uncaught Python exception escaping the dispatch of one tool call:
`KeyError` from `available_functions[function_name]` (line 97) or
`TypeError` from `function_to_call(**function_args)` (line 98). -/
inductive DispatchError where
  | keyError (name : String)
  | typeError (name : String)
deriving DecidableEq

/-- The inner `for tool_call in msg.tool_calls` loop (lines 89-121):
processes the requests in order, appending for each one the assistant
fragment and then the tool result message; a dispatch failure aborts the
loop, leaving the appends made so far in place (the source mutates
`messages`). -/
def processToolCalls (msgs : List Message) : List ToolCallRequest →
    Option DispatchError × List Message
  | [] => (none, msgs)
  | tc :: rest =>
    match available_functions tc.name with
    | none => (some (.keyError tc.name), msgs)
    | some f =>
      match f tc.args with
      | none => (some (.typeError tc.name), msgs)
      | some res =>
        processToolCalls (msgs ++ [assistantFrag tc, toolMsg tc res]) rest

/-- How one run of `get_completion_loop` ends: the `return msg` at
line 87, an uncaught dispatch exception, or the `Exception` raised at
line 123 after the iteration budget is spent. -/
inductive LoopResult where
  | converged (msg : EngineMsg)
  | dispatchFailure (e : DispatchError)
  | maxIterationsExceeded
deriving DecidableEq

/-- Observable outcome of a run: the result, the final contents of the
caller's (in-place mutated) `messages` list, and, as instrumentation of
the run, the conversation state passed to each successive
`chat.completions.create` call. -/
structure LoopOutcome where
  result : LoopResult
  messages : List Message
  callStates : List (List Message)
deriving DecidableEq

/-- Number of `chat.completions.create` calls the run performed. -/
def LoopOutcome.engineCalls (out : LoopOutcome) : Nat :=
  out.callStates.length

/-- The `for iteration in range(max_iterations)` loop of
`get_completion_loop` (lines 76-123), recursing on the remaining budget;
the oracle is shifted by one at each round trip so that `engine 0` is
always the next response. -/
def loopAux (engine : Nat → EngineMsg) (msgs : List Message) : Nat → LoopOutcome
  | 0 => ⟨.maxIterationsExceeded, msgs, []⟩
  | r + 1 =>
    let m := engine 0
    if m.tool_calls = [] then
      ⟨.converged m, msgs, [msgs]⟩
    else
      match processToolCalls msgs m.tool_calls with
      | (some e, msgs2) => ⟨.dispatchFailure e, msgs2, [msgs]⟩
      | (none, msgs2) =>
        let out := loopAux (fun n => engine (n + 1)) msgs2 r
        ⟨out.result, out.messages, msgs :: out.callStates⟩

/-- `get_completion_loop` (lines 75-123); the `model` parameter only names
the engine and is absorbed into the oracle. -/
def get_completion_loop (engine : Nat → EngineMsg) (messages : List Message)
    (max_iterations : Nat) : LoopOutcome :=
  loopAux engine messages max_iterations

/-- The result of dispatching one request: registry lookup followed by the
keyword-argument application. -/
def dispatchResult (tc : ToolCallRequest) : Option ToolResult :=
  match available_functions tc.name with
  | none => none
  | some f => f tc.args

/-- A request dispatches without raising. -/
def dispatchOk (tc : ToolCallRequest) : Bool :=
  (dispatchResult tc).isSome

/-- The two messages appended for one successfully dispatched request. -/
def turnPair (tc : ToolCallRequest) : List Message :=
  match dispatchResult tc with
  | some res => [assistantFrag tc, toolMsg tc res]
  | none => []

/-- All messages appended while resolving one engine response. -/
def turnMsgs (calls : List ToolCallRequest) : List Message :=
  calls.flatMap turnPair

/-- The initial conversation of the script (lines 125-128). -/
def initMsgs : List Message :=
  [⟨"system",
    some "You are an e-shop marketing copywriter. Write short promotional campaign texts.",
    [], none, none⟩,
   ⟨"user", some "Write a campaign text for product 202.", [], none, none⟩]

/-- Some earlier assistant message of `pre` carries a tool call with the
given id. -/
def hasAssistantFor (pre : List Message) (tcid : String) : Bool :=
  pre.any (fun m => m.role == "assistant" && m.tool_calls.any (fun c => c.id == tcid))

/-- A message is well-placed after the messages `pre`: a tool-role message
must carry a `tool_call_id` matched by an earlier assistant tool call. -/
def msgOkAfter (pre : List Message) (m : Message) : Bool :=
  if m.role == "tool" then
    match m.tool_call_id with
    | some tcid => hasAssistantFor pre tcid
    | none => false
  else true

/-- Every message of the second list is well-placed given the messages of
`pre` and its own predecessors. -/
def toolInvFrom (pre : List Message) : List Message → Bool
  | [] => true
  | m :: rest => msgOkAfter pre m && toolInvFrom (pre ++ [m]) rest

/-- The conversation-state invariant: every tool-role message is preceded,
somewhere earlier in the sequence, by an assistant message containing a
tool call with the matching identifier. -/
def toolInvB (msgs : List Message) : Bool :=
  toolInvFrom [] msgs

theorem toolInvFrom_append (l l2 pre : List Message) :
    toolInvFrom pre (l ++ l2) = (toolInvFrom pre l && toolInvFrom (pre ++ l) l2) := by
  induction l generalizing pre with
  | nil => simp [toolInvFrom]
  | cons m rest ih =>
    simp only [List.cons_append, toolInvFrom, List.append_eq]
    rw [ih (pre ++ [m]), Bool.and_assoc]
    simp [List.append_assoc]

theorem toolInvFrom_turnPairUnit (pre : List Message) (tc : ToolCallRequest)
    (res : ToolResult) :
    toolInvFrom pre [assistantFrag tc, toolMsg tc res] = true := by
  simp [toolInvFrom, msgOkAfter, assistantFrag, toolMsg, hasAssistantFor, List.any_append]

theorem toolInvB_append_pair (msgs : List Message) (tc : ToolCallRequest)
    (res : ToolResult) (h : toolInvB msgs = true) :
    toolInvB (msgs ++ [assistantFrag tc, toolMsg tc res]) = true := by
  unfold toolInvB at *
  rw [toolInvFrom_append, h, Bool.true_and, List.nil_append]
  exact toolInvFrom_turnPairUnit msgs tc res

theorem dispatchResult_eq_some (tc : ToolCallRequest) (res : ToolResult)
    (h : dispatchResult tc = some res) :
    ∃ f, available_functions tc.name = some f ∧ f tc.args = some res := by
  unfold dispatchResult at h
  cases hf : available_functions tc.name with
  | none =>
    simp only [hf] at h
    exact Option.noConfusion h
  | some f =>
    simp only [hf] at h
    exact ⟨f, rfl, h⟩

theorem turnPair_eq_of_dispatch (tc : ToolCallRequest) (res : ToolResult)
    (h : dispatchResult tc = some res) :
    turnPair tc = [assistantFrag tc, toolMsg tc res] := by
  unfold turnPair
  rw [h]

theorem processToolCalls_extends (calls : List ToolCallRequest) (msgs : List Message) :
    msgs <+: (processToolCalls msgs calls).2 := by
  induction calls generalizing msgs with
  | nil => exact List.prefix_rfl
  | cons tc rest ih =>
    simp only [processToolCalls]
    cases hf : available_functions tc.name with
    | none => simp only [hf]; exact List.prefix_rfl
    | some f =>
      simp only [hf]
      cases hr : f tc.args with
      | none => simp only [hr]; exact List.prefix_rfl
      | some res =>
        simp only [hr]
        exact (List.prefix_append msgs [assistantFrag tc, toolMsg tc res]).trans
          (ih (msgs ++ [assistantFrag tc, toolMsg tc res]))

theorem processToolCalls_toolInv (calls : List ToolCallRequest) (msgs : List Message)
    (h : toolInvB msgs = true) :
    toolInvB (processToolCalls msgs calls).2 = true := by
  induction calls generalizing msgs with
  | nil => exact h
  | cons tc rest ih =>
    simp only [processToolCalls]
    cases hf : available_functions tc.name with
    | none => simp only [hf]; exact h
    | some f =>
      simp only [hf]
      cases hr : f tc.args with
      | none => simp only [hr]; exact h
      | some res =>
        simp only [hr]
        exact ih (msgs ++ [assistantFrag tc, toolMsg tc res]) (toolInvB_append_pair msgs tc res h)

theorem processToolCalls_of_forall_ok (calls : List ToolCallRequest) (msgs : List Message)
    (h : ∀ tc ∈ calls, dispatchOk tc = true) :
    processToolCalls msgs calls = (none, msgs ++ turnMsgs calls) := by
  induction calls generalizing msgs with
  | nil => simp [processToolCalls, turnMsgs]
  | cons tc rest ih =>
    have htc : dispatchOk tc = true := h tc (List.mem_cons_self tc rest)
    have hrest : ∀ tc2 ∈ rest, dispatchOk tc2 = true :=
      fun tc2 h2 => h tc2 (List.mem_cons_of_mem tc h2)
    obtain ⟨res, hres⟩ := Option.isSome_iff_exists.mp htc
    obtain ⟨f, hf, hr⟩ := dispatchResult_eq_some tc res hres
    simp only [processToolCalls, hf, hr]
    rw [ih _ hrest]
    simp [turnMsgs, turnPair_eq_of_dispatch tc res hres, List.append_assoc]

theorem processToolCalls_ok_eq (calls : List ToolCallRequest) (msgs msgs2 : List Message)
    (h : processToolCalls msgs calls = (none, msgs2)) :
    msgs2 = msgs ++ turnMsgs calls ∧ ∀ tc ∈ calls, dispatchOk tc = true := by
  induction calls generalizing msgs with
  | nil =>
    simp only [processToolCalls, Prod.mk.injEq] at h
    simp [turnMsgs, h.2.symm]
  | cons tc rest ih =>
    simp only [processToolCalls] at h
    cases hf : available_functions tc.name with
    | none =>
      simp only [hf] at h
      simp at h
    | some f =>
      simp only [hf] at h
      cases hr : f tc.args with
      | none =>
        simp only [hr] at h
        simp at h
      | some res =>
        simp only [hr] at h
        obtain ⟨heq, hok⟩ := ih (msgs ++ [assistantFrag tc, toolMsg tc res]) h
        have hres : dispatchResult tc = some res := by
          simp [dispatchResult, hf, hr]
        have htc : dispatchOk tc = true := by
          simp [dispatchOk, hres]
        refine ⟨?_, ?_⟩
        · rw [heq]
          simp [turnMsgs, turnPair_eq_of_dispatch tc res hres, List.append_assoc]
        · intro tc2 h2
          rcases List.mem_cons.mp h2 with h2 | h2
          · rw [h2]; exact htc
          · exact hok tc2 h2

theorem processToolCalls_keyError (pre : List ToolCallRequest) (tc : ToolCallRequest)
    (post : List ToolCallRequest) (msgs : List Message)
    (hpre : ∀ tc2 ∈ pre, dispatchOk tc2 = true)
    (hunknown : available_functions tc.name = none) :
    processToolCalls msgs (pre ++ tc :: post) =
      (some (.keyError tc.name), msgs ++ turnMsgs pre) := by
  induction pre generalizing msgs with
  | nil => simp [processToolCalls, hunknown, turnMsgs]
  | cons tc0 rest ih =>
    have htc0 : dispatchOk tc0 = true := hpre tc0 (List.mem_cons_self tc0 rest)
    have hrest : ∀ tc2 ∈ rest, dispatchOk tc2 = true :=
      fun tc2 h2 => hpre tc2 (List.mem_cons_of_mem tc0 h2)
    obtain ⟨res, hres⟩ := Option.isSome_iff_exists.mp htc0
    obtain ⟨f, hf, hr⟩ := dispatchResult_eq_some tc0 res hres
    simp only [List.cons_append, processToolCalls, hf, hr, List.append_eq]
    rw [ih _ hrest]
    simp [turnMsgs, turnPair_eq_of_dispatch tc0 res hres, List.append_assoc]

theorem loopAux_zero (engine : Nat → EngineMsg) (msgs : List Message) :
    loopAux engine msgs 0 = ⟨.maxIterationsExceeded, msgs, []⟩ := rfl

theorem loopAux_succ_conv (engine : Nat → EngineMsg) (msgs : List Message) (r : Nat)
    (h : (engine 0).tool_calls = []) :
    loopAux engine msgs (r + 1) = ⟨.converged (engine 0), msgs, [msgs]⟩ := by
  simp [loopAux, h]

theorem loopAux_succ_err (engine : Nat → EngineMsg) (msgs msgs2 : List Message) (r : Nat)
    (e : DispatchError) (h : (engine 0).tool_calls ≠ [])
    (h2 : processToolCalls msgs (engine 0).tool_calls = (some e, msgs2)) :
    loopAux engine msgs (r + 1) = ⟨.dispatchFailure e, msgs2, [msgs]⟩ := by
  simp [loopAux, h, h2]

theorem loopAux_succ_ok (engine : Nat → EngineMsg) (msgs msgs2 : List Message) (r : Nat)
    (h : (engine 0).tool_calls ≠ [])
    (h2 : processToolCalls msgs (engine 0).tool_calls = (none, msgs2)) :
    loopAux engine msgs (r + 1) =
      ⟨(loopAux (fun n => engine (n + 1)) msgs2 r).result,
       (loopAux (fun n => engine (n + 1)) msgs2 r).messages,
       msgs :: (loopAux (fun n => engine (n + 1)) msgs2 r).callStates⟩ := by
  simp [loopAux, h, h2]

theorem loopAux_extends (r : Nat) (engine : Nat → EngineMsg) (msgs : List Message) :
    msgs <+: (loopAux engine msgs r).messages := by
  induction r generalizing engine msgs with
  | zero => exact List.prefix_rfl
  | succ r ih =>
    by_cases h : (engine 0).tool_calls = []
    · rw [loopAux_succ_conv engine msgs r h]
    · rcases hp : processToolCalls msgs (engine 0).tool_calls with ⟨oe, msgs2⟩
      cases oe with
      | some e =>
        rw [loopAux_succ_err engine msgs msgs2 r e h hp]
        have h1 := processToolCalls_extends (engine 0).tool_calls msgs
        rw [hp] at h1
        exact h1
      | none =>
        rw [loopAux_succ_ok engine msgs msgs2 r h hp]
        have h1 := processToolCalls_extends (engine 0).tool_calls msgs
        rw [hp] at h1
        exact h1.trans (ih _ msgs2)

theorem loopAux_callStates_succ (r : Nat) (engine : Nat → EngineMsg) (msgs : List Message)
    (k : Nat) (s2 : List Message)
    (h : (loopAux engine msgs r).callStates[k + 1]? = some s2) :
    ∃ s, (loopAux engine msgs r).callStates[k]? = some s ∧
      (engine k).tool_calls ≠ [] ∧
      processToolCalls s (engine k).tool_calls = (none, s2) := by
  induction r generalizing engine msgs k with
  | zero => rw [loopAux_zero] at h; simp at h
  | succ r ih =>
    by_cases h0 : (engine 0).tool_calls = []
    · rw [loopAux_succ_conv engine msgs r h0] at h
      simp at h
    · rcases hp : processToolCalls msgs (engine 0).tool_calls with ⟨oe, msgs2⟩
      cases oe with
      | some e =>
        rw [loopAux_succ_err engine msgs msgs2 r e h0 hp] at h
        simp at h
      | none =>
        rw [loopAux_succ_ok engine msgs msgs2 r h0 hp] at h ⊢
        simp only [List.getElem?_cons_succ] at h ⊢
        cases k with
        | zero =>
          refine ⟨msgs, by simp, h0, ?_⟩
          have hhead : (loopAux (fun n => engine (n + 1)) msgs2 r).callStates[0]? = some s2 := h
          cases r with
          | zero => rw [loopAux_zero] at hhead; simp at hhead
          | succ r2 =>
            have h2 : ∀ s3, (loopAux (fun n => engine (n + 1)) msgs2 (r2 + 1)).callStates[0]? =
                some s3 → s3 = msgs2 := by
              intro s3 hs3
              by_cases hb : ((fun n => engine (n + 1)) 0).tool_calls = []
              · rw [loopAux_succ_conv _ msgs2 r2 hb] at hs3
                simp at hs3
                exact hs3.symm
              · rcases hpb : processToolCalls msgs2 ((fun n => engine (n + 1)) 0).tool_calls
                  with ⟨oe2, msgs3⟩
                cases oe2 with
                | some e2 =>
                  rw [loopAux_succ_err _ msgs2 msgs3 r2 e2 hb hpb] at hs3
                  simp at hs3
                  exact hs3.symm
                | none =>
                  rw [loopAux_succ_ok _ msgs2 msgs3 r2 hb hpb] at hs3
                  simp at hs3
                  exact hs3.symm
            rw [h2 s2 hhead]
            exact hp
        | succ k2 =>
          obtain ⟨s, hs, hne, hps⟩ := ih (fun n => engine (n + 1)) msgs2 k2 h
          refine ⟨s, ?_, hne, hps⟩
          simpa using hs

theorem loopAux_state_prefix_messages (r : Nat) (engine : Nat → EngineMsg)
    (msgs : List Message) (k : Nat) (s : List Message)
    (h : (loopAux engine msgs r).callStates[k]? = some s) :
    s <+: (loopAux engine msgs r).messages := by
  induction r generalizing engine msgs k with
  | zero => rw [loopAux_zero] at h; simp at h
  | succ r ih =>
    by_cases h0 : (engine 0).tool_calls = []
    · rw [loopAux_succ_conv engine msgs r h0] at h ⊢
      cases k with
      | zero => simp at h; rw [h]
      | succ k2 => simp at h
    · rcases hp : processToolCalls msgs (engine 0).tool_calls with ⟨oe, msgs2⟩
      cases oe with
      | some e =>
        rw [loopAux_succ_err engine msgs msgs2 r e h0 hp] at h ⊢
        cases k with
        | zero =>
          simp at h
          subst h
          have h1 := processToolCalls_extends (engine 0).tool_calls msgs
          rw [hp] at h1
          exact h1
        | succ k2 => simp at h
      | none =>
        rw [loopAux_succ_ok engine msgs msgs2 r h0 hp] at h ⊢
        cases k with
        | zero =>
          simp at h
          subst h
          have h1 := processToolCalls_extends (engine 0).tool_calls msgs
          rw [hp] at h1
          exact h1.trans (loopAux_extends r _ msgs2)
        | succ k2 =>
          simp only [List.getElem?_cons_succ] at h
          exact ih (fun n => engine (n + 1)) msgs2 k2 h

theorem loopAux_toolInv (r : Nat) (engine : Nat → EngineMsg) (msgs : List Message)
    (h : toolInvB msgs = true) :
    toolInvB (loopAux engine msgs r).messages = true ∧
      ∀ s ∈ (loopAux engine msgs r).callStates, toolInvB s = true := by
  induction r generalizing engine msgs with
  | zero => rw [loopAux_zero]; exact ⟨h, by simp⟩
  | succ r ih =>
    by_cases h0 : (engine 0).tool_calls = []
    · rw [loopAux_succ_conv engine msgs r h0]
      exact ⟨h, by simpa using h⟩
    · rcases hp : processToolCalls msgs (engine 0).tool_calls with ⟨oe, msgs2⟩
      have h2 := processToolCalls_toolInv (engine 0).tool_calls msgs h
      rw [hp] at h2
      cases oe with
      | some e =>
        rw [loopAux_succ_err engine msgs msgs2 r e h0 hp]
        exact ⟨h2, by simpa using h⟩
      | none =>
        rw [loopAux_succ_ok engine msgs msgs2 r h0 hp]
        obtain ⟨hm, hs⟩ := ih (fun n => engine (n + 1)) msgs2 h2
        refine ⟨hm, ?_⟩
        intro s hsmem
        rcases List.mem_cons.mp hsmem with hsmem | hsmem
        · rw [hsmem]; exact h
        · exact hs s hsmem

theorem loopAux_converges (k : Nat) :
    ∀ (r : Nat) (engine : Nat → EngineMsg) (msgs : List Message),
    k < r →
    (∀ i, i < k → (engine i).tool_calls ≠ []) →
    (∀ i, i < k → ∀ tc ∈ (engine i).tool_calls, dispatchOk tc = true) →
    (engine k).tool_calls = [] →
    (loopAux engine msgs r).result = .converged (engine k) ∧
      (loopAux engine msgs r).callStates.length = k + 1 := by
  induction k with
  | zero =>
    intro r engine msgs hk hne hdisp hconv
    obtain ⟨r2, rfl⟩ : ∃ r2, r = r2 + 1 := ⟨r - 1, by omega⟩
    rw [loopAux_succ_conv engine msgs r2 hconv]
    exact ⟨rfl, rfl⟩
  | succ k ih =>
    intro r engine msgs hk hne hdisp hconv
    obtain ⟨r2, rfl⟩ : ∃ r2, r = r2 + 1 := ⟨r - 1, by omega⟩
    have h0 : (engine 0).tool_calls ≠ [] := hne 0 (by omega)
    have hok : ∀ tc ∈ (engine 0).tool_calls, dispatchOk tc = true := hdisp 0 (by omega)
    have hp := processToolCalls_of_forall_ok (engine 0).tool_calls msgs hok
    rw [loopAux_succ_ok engine msgs _ r2 h0 hp]
    have hsub := ih r2 (fun n => engine (n + 1)) (msgs ++ turnMsgs (engine 0).tool_calls)
      (by omega) (fun i hi => hne (i + 1) (by omega))
      (fun i hi => hdisp (i + 1) (by omega)) hconv
    exact ⟨hsub.1, by simp [hsub.2]⟩

theorem loopAux_exhaustion : ∀ (r : Nat) (engine : Nat → EngineMsg) (msgs : List Message),
    (∀ i, i < r → (engine i).tool_calls ≠ []) →
    (∀ i, i < r → ∀ tc ∈ (engine i).tool_calls, dispatchOk tc = true) →
    (loopAux engine msgs r).result = .maxIterationsExceeded ∧
      (loopAux engine msgs r).callStates.length = r := by
  intro r
  induction r with
  | zero => intro engine msgs _ _; rw [loopAux_zero]; exact ⟨rfl, rfl⟩
  | succ r ih =>
    intro engine msgs hne hdisp
    have h0 : (engine 0).tool_calls ≠ [] := hne 0 (by omega)
    have hok : ∀ tc ∈ (engine 0).tool_calls, dispatchOk tc = true := hdisp 0 (by omega)
    have hp := processToolCalls_of_forall_ok (engine 0).tool_calls msgs hok
    rw [loopAux_succ_ok engine msgs _ r h0 hp]
    have hsub := ih (fun n => engine (n + 1)) (msgs ++ turnMsgs (engine 0).tool_calls)
      (fun i hi => hne (i + 1) (by omega)) (fun i hi => hdisp (i + 1) (by omega))
    exact ⟨hsub.1, by simp [hsub.2]⟩

theorem loopAux_converged_last (r : Nat) (engine : Nat → EngineMsg) (msgs : List Message)
    (m : EngineMsg) (h : (loopAux engine msgs r).result = .converged m) :
    ∃ k, (loopAux engine msgs r).callStates[k]? = some (loopAux engine msgs r).messages ∧
      (loopAux engine msgs r).callStates.length = k + 1 ∧
      m = engine k ∧ (engine k).tool_calls = [] := by
  induction r generalizing engine msgs with
  | zero => rw [loopAux_zero] at h; exact LoopResult.noConfusion h
  | succ r ih =>
    by_cases h0 : (engine 0).tool_calls = []
    · rw [loopAux_succ_conv engine msgs r h0] at h ⊢
      have hm : m = engine 0 := by
        have := h
        simp only at this
        exact (LoopResult.converged.injEq _ _).mp this.symm
      exact ⟨0, by simp, by simp, hm, h0⟩
    · rcases hp : processToolCalls msgs (engine 0).tool_calls with ⟨oe, msgs2⟩
      cases oe with
      | some e =>
        rw [loopAux_succ_err engine msgs msgs2 r e h0 hp] at h
        exact LoopResult.noConfusion h
      | none =>
        rw [loopAux_succ_ok engine msgs msgs2 r h0 hp] at h ⊢
        obtain ⟨k, hk1, hk2, hk3, hk4⟩ := ih (fun n => engine (n + 1)) msgs2 h
        exact ⟨k + 1, by simpa using hk1, by simpa using hk2, hk3, hk4⟩

theorem loopAux_keyError (r : Nat) (engine : Nat → EngineMsg) (msgs : List Message)
    (k : Nat) (s : List Message) (pre : List ToolCallRequest) (tc : ToolCallRequest)
    (post : List ToolCallRequest)
    (hstate : (loopAux engine msgs r).callStates[k]? = some s)
    (hturn : (engine k).tool_calls = pre ++ tc :: post)
    (hpre : ∀ tc2 ∈ pre, dispatchOk tc2 = true)
    (hunknown : available_functions tc.name = none) :
    (loopAux engine msgs r).result = .dispatchFailure (.keyError tc.name) ∧
      (loopAux engine msgs r).messages = s ++ turnMsgs pre := by
  induction r generalizing engine msgs k with
  | zero => rw [loopAux_zero] at hstate; simp at hstate
  | succ r ih =>
    have hkey := processToolCalls_keyError pre tc post s hpre hunknown
    by_cases h0 : (engine 0).tool_calls = []
    · rw [loopAux_succ_conv engine msgs r h0] at hstate
      cases k with
      | zero =>
        rw [hturn] at h0
        simp at h0
      | succ k2 => simp at hstate
    · rcases hp : processToolCalls msgs (engine 0).tool_calls with ⟨oe, msgs2⟩
      cases oe with
      | some e =>
        rw [loopAux_succ_err engine msgs msgs2 r e h0 hp] at hstate ⊢
        cases k with
        | zero =>
          simp at hstate
          subst hstate
          rw [hturn] at hp
          rw [hkey] at hp
          simp only [Prod.mk.injEq, Option.some.injEq] at hp
          obtain ⟨he, hm⟩ := hp
          refine ⟨?_, hm.symm⟩
          rw [he]
        | succ k2 => simp at hstate
      | none =>
        rw [loopAux_succ_ok engine msgs msgs2 r h0 hp] at hstate ⊢
        cases k with
        | zero =>
          simp at hstate
          subst hstate
          rw [hturn] at hp
          rw [hkey] at hp
          simp at hp
        | succ k2 =>
          simp only [List.getElem?_cons_succ] at hstate
          exact ih (fun n => engine (n + 1)) msgs2 k2 hstate hturn

theorem loopAux_callStates_head (r : Nat) (engine : Nat → EngineMsg) (msgs : List Message)
    (h : r ≠ 0) : (loopAux engine msgs r).callStates[0]? = some msgs := by
  obtain ⟨r2, rfl⟩ : ∃ r2, r = r2 + 1 := ⟨r - 1, by omega⟩
  by_cases h0 : (engine 0).tool_calls = []
  · rw [loopAux_succ_conv engine msgs r2 h0]; simp
  · rcases hp : processToolCalls msgs (engine 0).tool_calls with ⟨oe, msgs2⟩
    cases oe with
    | some e => rw [loopAux_succ_err engine msgs msgs2 r2 e h0 hp]; simp
    | none => rw [loopAux_succ_ok engine msgs msgs2 r2 h0 hp]; simp

theorem loopAux_turn_processed (r : Nat) (engine : Nat → EngineMsg) (msgs : List Message)
    (k : Nat) (s s2 : List Message)
    (hstate : (loopAux engine msgs r).callStates[k]? = some s)
    (hne : (engine k).tool_calls ≠ [])
    (hps : processToolCalls s (engine k).tool_calls = (none, s2)) :
    (loopAux engine msgs r).callStates[k + 1]? = some s2 ∨
      ((loopAux engine msgs r).messages = s2 ∧
        (loopAux engine msgs r).result = .maxIterationsExceeded ∧
        (loopAux engine msgs r).callStates.length = k + 1) := by
  induction r generalizing engine msgs k with
  | zero => rw [loopAux_zero] at hstate; simp at hstate
  | succ r ih =>
    by_cases h0 : (engine 0).tool_calls = []
    · rw [loopAux_succ_conv engine msgs r h0] at hstate
      cases k with
      | zero => exact absurd h0 hne
      | succ k2 => simp at hstate
    · rcases hp : processToolCalls msgs (engine 0).tool_calls with ⟨oe, msgs2⟩
      cases oe with
      | some e =>
        rw [loopAux_succ_err engine msgs msgs2 r e h0 hp] at hstate
        cases k with
        | zero =>
          simp at hstate
          subst hstate
          rw [hps] at hp
          simp at hp
        | succ k2 => simp at hstate
      | none =>
        rw [loopAux_succ_ok engine msgs msgs2 r h0 hp] at hstate ⊢
        cases k with
        | zero =>
          simp at hstate
          subst hstate
          rw [hps] at hp
          simp only [Prod.mk.injEq] at hp
          obtain ⟨-, hm⟩ := hp
          subst hm
          cases r with
          | zero =>
            right
            rw [loopAux_zero]
            exact ⟨rfl, rfl, rfl⟩
          | succ r2 =>
            left
            simp only [List.getElem?_cons_succ]
            exact loopAux_callStates_head (r2 + 1) (fun n => engine (n + 1)) s2 (by omega)
        | succ k2 =>
          simp only [List.getElem?_cons_succ] at hstate ⊢
          rcases ih (fun n => engine (n + 1)) msgs2 k2 hstate hne hps with hl | hr
          · exact Or.inl hl
          · exact Or.inr ⟨hr.1, hr.2.1, by simp [hr.2.2]⟩

/-! Concrete requests and engine oracles used to evaluate the loop on
specific runs. -/

def tcBogus : ToolCallRequest := ⟨"call_0", "bogus", [("x", "1")]⟩

def tcDisc101 : ToolCallRequest := ⟨"call_a", "get_discount", [("product_id", "101")]⟩

def tcProd202 : ToolCallRequest := ⟨"call_1", "get_product_info", [("product_id", "202")]⟩

def tcDisc202 : ToolCallRequest := ⟨"call_2", "get_discount", [("product_id", "202")]⟩

def tcWeather : ToolCallRequest := ⟨"call_w", "get_weather", [("city", "Brno")]⟩

def cleanMsg : EngineMsg := ⟨some "done", []⟩

/-- Oracle whose first response requests an unregistered tool and whose
second response carries no tool calls. -/
def engineBogusThenClean : Nat → EngineMsg
  | 0 => ⟨none, [tcBogus]⟩
  | _ + 1 => cleanMsg

/-- Oracle requesting an unregistered tool on every response. -/
def engineAlwaysBogus : Nat → EngineMsg :=
  fun _ => ⟨none, [tcBogus]⟩

/-- Oracle requesting a registered tool on every response. -/
def engineAlwaysTool : Nat → EngineMsg :=
  fun _ => ⟨none, [tcDisc101]⟩

/-- Oracle whose first response carries two registered tool calls. -/
def engineTwoCalls : Nat → EngineMsg
  | 0 => ⟨none, [tcProd202, tcDisc202]⟩
  | _ + 1 => cleanMsg

/-- Oracle whose first response carries one registered tool call. -/
def engineOneTool : Nat → EngineMsg
  | 0 => ⟨none, [tcDisc101]⟩
  | _ + 1 => cleanMsg

/-- Oracle whose first response requests a registered tool and then an
unregistered one. -/
def engineMixedCalls : Nat → EngineMsg
  | 0 => ⟨none, [tcDisc101, tcWeather]⟩
  | _ + 1 => cleanMsg

/-- Oracle whose first response requests only an unregistered tool. -/
def engineWeatherOnly : Nat → EngineMsg
  | 0 => ⟨none, [tcWeather]⟩
  | _ + 1 => cleanMsg

/-- Oracle answering immediately with no tool calls. -/
def engineClean : Nat → EngineMsg := fun _ => cleanMsg

/-- Bounded check that each of the first `n` responses carries at least one
tool call. -/
def allResponsesToolCalling (engine : Nat → EngineMsg) (n : Nat) : Bool :=
  (List.range n).all (fun i => !(engine i).tool_calls.isEmpty)

/-- C1 (corrected): for an oracle whose `k`-th response is the first with
no ToolCallRequests, `k` within the budget, and whose earlier responses
only request registered tools with accepted arguments, the loop returns
exactly that response as the final answer after `k + 1` engine calls, and
`converged` is the only success exit. -/
theorem get_completion_loop_converges_at_first_tool_free_response
    (engine : Nat → EngineMsg) (init : List Message) (N k : Nat)
    (hk : k < N)
    (hfirst : ∀ i, i < k → (engine i).tool_calls ≠ [])
    (hdisp : ∀ i, i < k → ∀ tc ∈ (engine i).tool_calls, dispatchOk tc = true)
    (hconv : (engine k).tool_calls = []) :
    (get_completion_loop engine init N).result = .converged (engine k) ∧
      (get_completion_loop engine init N).engineCalls = k + 1 ∧
      ∀ m, (get_completion_loop engine init N).result = .converged m → m = engine k := by
  have h := loopAux_converges k N engine init hk hfirst hdisp hconv
  refine ⟨h.1, h.2, ?_⟩
  intro m hm
  simp only [get_completion_loop] at hm
  rw [h.1] at hm
  exact ((LoopResult.converged.injEq _ _).mp hm.symm)

/-- Witness for C1's theorem on a concrete run: one tool-calling response,
then a tool-free one, reached after two engine calls. -/
theorem get_completion_loop_converges_witness :
    (engineOneTool 1).tool_calls = [] ∧
      (get_completion_loop engineOneTool initMsgs 10).result = .converged cleanMsg ∧
      (get_completion_loop engineOneTool initMsgs 10).engineCalls = 2 := by
  have h := get_completion_loop_converges_at_first_tool_free_response
    engineOneTool initMsgs 10 1 (by decide) (by decide) (by decide) rfl
  exact ⟨rfl, h.1, h.2.1⟩

/-- Counterexample to C1 as stated: the second response of
`engineBogusThenClean` carries no ToolCallRequests and lies within the
budget of 10, yet the run does not succeed: the first response's unknown
tool name raises out of the loop before the tool-free response is ever
reached. -/
theorem get_completion_loop_raises_before_tool_free_response :
    (engineBogusThenClean 1).tool_calls = [] ∧ 1 < 10 ∧
      (get_completion_loop engineBogusThenClean initMsgs 10).result =
        .dispatchFailure (.keyError "bogus") ∧
      (get_completion_loop engineBogusThenClean initMsgs 10).result ≠
        .converged (engineBogusThenClean 1) := by
  decide

/-- C3 (corrected): the loop never appends the responding message itself;
instead, between two consecutive engine calls it appends, for each request
of the turn in listed order, a fresh assistant message carrying exactly
that single request (identifier, tool name, re-serialized arguments)
immediately followed by that request's tool-role result message. -/
theorem get_completion_loop_turn_append_shape
    (engine : Nat → EngineMsg) (init : List Message) (N k : Nat) (s2 : List Message)
    (h : (get_completion_loop engine init N).callStates[k + 1]? = some s2) :
    ∃ s, (get_completion_loop engine init N).callStates[k]? = some s ∧
      s2 = s ++ turnMsgs (engine k).tool_calls ∧
      ∀ tc ∈ (engine k).tool_calls, ∃ res, dispatchResult tc = some res ∧
        turnPair tc = [assistantFrag tc, toolMsg tc res] := by
  obtain ⟨s, hs, hne, hps⟩ := loopAux_callStates_succ N engine init k s2 h
  obtain ⟨heq, hok⟩ := processToolCalls_ok_eq _ _ _ hps
  refine ⟨s, hs, heq, ?_⟩
  intro tc htc
  obtain ⟨res, hres⟩ := Option.isSome_iff_exists.mp (hok tc htc)
  exact ⟨res, hres, turnPair_eq_of_dispatch tc res hres⟩

/-- Witness for C3's theorem on the two-call run: the state of the second
engine call extends the initial one by exactly the per-request
assistant/tool message pairs of the first turn. -/
theorem get_completion_loop_turn_append_shape_witness :
    (get_completion_loop engineTwoCalls initMsgs 10).callStates[1]? =
        some (initMsgs ++ turnMsgs (engineTwoCalls 0).tool_calls) ∧
      ∃ s, (get_completion_loop engineTwoCalls initMsgs 10).callStates[0]? = some s ∧
        initMsgs ++ turnMsgs (engineTwoCalls 0).tool_calls =
          s ++ turnMsgs (engineTwoCalls 0).tool_calls ∧
        ∀ tc ∈ (engineTwoCalls 0).tool_calls, ∃ res, dispatchResult tc = some res ∧
          turnPair tc = [assistantFrag tc, toolMsg tc res] := by
  refine ⟨by decide, ?_⟩
  exact get_completion_loop_turn_append_shape engineTwoCalls initMsgs 10 0 _ (by decide)

/-- Counterexample to C3 as stated: on a response requesting two tools
(ids call_1 and call_2), the first appended message is an assistant
message carrying only the identifier call_1 — not all of the response's
identifiers — and a tool-role message sits at index 3, before the
assistant message at index 4 that carries call_2. -/
theorem get_completion_loop_splits_assistant_record :
    (get_completion_loop engineTwoCalls initMsgs 10).messages[2]? =
        some (assistantFrag tcProd202) ∧
      ((assistantFrag tcProd202).tool_calls.map SerializedToolCall.id) = ["call_1"] ∧
      ((get_completion_loop engineTwoCalls initMsgs 10).messages[3]?.map Message.role) =
        some "tool" ∧
      (get_completion_loop engineTwoCalls initMsgs 10).messages[4]? =
        some (assistantFrag tcDisc202) := by
  decide

/-- C4 (corrected): a ToolCallRequest naming a tool absent from
`available_functions` makes the loop raise the registry lookup failure
(KeyError) out of `get_completion_loop`: the run ends as a dispatch
failure, nothing is appended for the offending request, and no error-shaped
tool-role result message is produced. -/
theorem get_completion_loop_unknown_tool_raises
    (engine : Nat → EngineMsg) (init : List Message) (N k : Nat) (s : List Message)
    (pre : List ToolCallRequest) (tc : ToolCallRequest) (post : List ToolCallRequest)
    (hstate : (get_completion_loop engine init N).callStates[k]? = some s)
    (hturn : (engine k).tool_calls = pre ++ tc :: post)
    (hpre : ∀ tc2 ∈ pre, dispatchOk tc2 = true)
    (hunknown : available_functions tc.name = none) :
    (get_completion_loop engine init N).result = .dispatchFailure (.keyError tc.name) ∧
      (get_completion_loop engine init N).messages = s ++ turnMsgs pre :=
  loopAux_keyError N engine init k s pre tc post hstate hturn hpre hunknown

/-- Witness for C4's theorem: a first response requesting only the
unregistered tool get_weather raises immediately, appending nothing. -/
theorem get_completion_loop_unknown_tool_raises_witness :
    (get_completion_loop engineWeatherOnly initMsgs 10).callStates[0]? = some initMsgs ∧
      available_functions "get_weather" = none ∧
      (get_completion_loop engineWeatherOnly initMsgs 10).result =
        .dispatchFailure (.keyError "get_weather") ∧
      (get_completion_loop engineWeatherOnly initMsgs 10).messages =
        initMsgs ++ turnMsgs [] := by
  have h := get_completion_loop_unknown_tool_raises engineWeatherOnly initMsgs 10 0
    initMsgs [] tcWeather [] (by decide) rfl (by decide) rfl
  exact ⟨by decide, rfl, h.1, h.2⟩

/-- Counterexample to C4 as stated: dispatching the unknown tool
get_weather does not yield an error-shaped tool-role message — the final
conversation contains no tool-role message at all — and the failure
escapes the loop as an exception rather than being folded into a result. -/
theorem get_completion_loop_unknown_tool_no_error_message :
    available_functions "get_weather" = none ∧
      (get_completion_loop engineWeatherOnly initMsgs 10).result =
        .dispatchFailure (.keyError "get_weather") ∧
      (get_completion_loop engineWeatherOnly initMsgs 10).messages.filter
        (fun m => m.role == "tool") = [] := by
  exact ⟨rfl, by decide, by decide⟩

/-- C5 (confirmed): given an initial conversation satisfying the
tool-message invariant, every state the loop ever sends to the engine and
the final conversation extend the initial one (append-only growth: each
observed state is a prefix of the final list), the invariant holds of all
of them, and the state of each engine call k+1 is exactly the state of
call k extended by turn k's appended messages — so every tool result of
turn k lands after its assistant message and before call k+1. -/
theorem get_completion_loop_append_only_invariant
    (engine : Nat → EngineMsg) (init : List Message) (N : Nat)
    (hinv : toolInvB init = true) :
    init <+: (get_completion_loop engine init N).messages ∧
      (∀ (k : Nat) (s : List Message),
        (get_completion_loop engine init N).callStates[k]? = some s →
        s <+: (get_completion_loop engine init N).messages) ∧
      toolInvB (get_completion_loop engine init N).messages = true ∧
      (∀ s ∈ (get_completion_loop engine init N).callStates, toolInvB s = true) ∧
      (∀ (k : Nat) (s2 : List Message),
        (get_completion_loop engine init N).callStates[k + 1]? = some s2 →
        ∃ s, (get_completion_loop engine init N).callStates[k]? = some s ∧
          s2 = s ++ turnMsgs (engine k).tool_calls) := by
  refine ⟨loopAux_extends N engine init,
    fun k s hs => loopAux_state_prefix_messages N engine init k s hs,
    (loopAux_toolInv N engine init hinv).1,
    (loopAux_toolInv N engine init hinv).2, ?_⟩
  intro k s2 h
  obtain ⟨s, hs, hne, hps⟩ := loopAux_callStates_succ N engine init k s2 h
  exact ⟨s, hs, (processToolCalls_ok_eq _ _ _ hps).1⟩

/-- Witness for C5's theorem on a concrete run satisfying the invariant
initially. -/
theorem get_completion_loop_append_only_invariant_witness :
    toolInvB initMsgs = true ∧
      initMsgs <+: (get_completion_loop engineOneTool initMsgs 3).messages ∧
      toolInvB (get_completion_loop engineOneTool initMsgs 3).messages = true := by
  have h := get_completion_loop_append_only_invariant engineOneTool initMsgs 3 (by decide)
  exact ⟨by decide, h.1, h.2.2.1⟩

/-- C6 (corrected): when an engine response carries exactly two requests
and both dispatch successfully, the loop appends both assistant/tool pairs
— exactly two tool-role messages, in request order — and any next engine
call is issued with exactly that fully extended state: partial progress is
never sent. -/
theorem get_completion_loop_two_calls_one_turn
    (engine : Nat → EngineMsg) (init : List Message) (N k : Nat) (s : List Message)
    (tc1 tc2 : ToolCallRequest) (res1 res2 : ToolResult)
    (hstate : (get_completion_loop engine init N).callStates[k]? = some s)
    (hturn : (engine k).tool_calls = [tc1, tc2])
    (h1 : dispatchResult tc1 = some res1)
    (h2 : dispatchResult tc2 = some res2) :
    (s ++ [assistantFrag tc1, toolMsg tc1 res1, assistantFrag tc2, toolMsg tc2 res2]) <+:
        (get_completion_loop engine init N).messages ∧
      [assistantFrag tc1, toolMsg tc1 res1, assistantFrag tc2, toolMsg tc2 res2].filter
        (fun m => m.role == "tool") = [toolMsg tc1 res1, toolMsg tc2 res2] ∧
      ∀ (s3 : List Message), (get_completion_loop engine init N).callStates[k + 1]? = some s3 →
        s3 = s ++ [assistantFrag tc1, toolMsg tc1 res1, assistantFrag tc2, toolMsg tc2 res2] := by
  simp only [get_completion_loop] at hstate ⊢
  have hmsgs : turnMsgs (engine k).tool_calls =
      [assistantFrag tc1, toolMsg tc1 res1, assistantFrag tc2, toolMsg tc2 res2] := by
    rw [hturn]
    simp [turnMsgs, turnPair_eq_of_dispatch tc1 res1 h1, turnPair_eq_of_dispatch tc2 res2 h2]
  have hne : (engine k).tool_calls ≠ [] := by rw [hturn]; simp
  have hok : ∀ tc ∈ (engine k).tool_calls, dispatchOk tc = true := by
    rw [hturn]
    intro tc htc
    rcases List.mem_cons.mp htc with h | h
    · rw [h]; simp [dispatchOk, h1]
    · rcases List.mem_cons.mp h with h | h
      · rw [h]; simp [dispatchOk, h2]
      · simp at h
  have hps := processToolCalls_of_forall_ok (engine k).tool_calls s hok
  rw [hmsgs] at hps
  have hproc := loopAux_turn_processed N engine init k s _ hstate hne hps
  constructor
  · rcases hproc with hl | hr
    · exact loopAux_state_prefix_messages N engine init (k + 1) _ hl
    · rw [hr.1]
  refine ⟨by simp [assistantFrag, toolMsg], ?_⟩
  intro s3 h3
  obtain ⟨s4, hs4, hne4, hps4⟩ := loopAux_callStates_succ N engine init k s3 h3
  have hss : s4 = s := by
    rw [hstate] at hs4
    exact (Option.some.injEq _ _).mp hs4.symm
  subst hss
  rw [hps] at hps4
  simp only [Prod.mk.injEq] at hps4
  exact hps4.2.symm

/-- Witness for C6's theorem on the two-call run. -/
theorem get_completion_loop_two_calls_one_turn_witness :
    (get_completion_loop engineTwoCalls initMsgs 10).callStates[0]? = some initMsgs ∧
      (engineTwoCalls 0).tool_calls = [tcProd202, tcDisc202] ∧
      dispatchResult tcProd202 = some (.product
        ⟨"Noise Cancelling Headphones", "High fidelity wireless ANC headphones", mkRat 12999 100⟩) ∧
      dispatchResult tcDisc202 = some (.discount 20) ∧
      (initMsgs ++ [assistantFrag tcProd202,
        toolMsg tcProd202 (.product
          ⟨"Noise Cancelling Headphones", "High fidelity wireless ANC headphones", mkRat 12999 100⟩),
        assistantFrag tcDisc202, toolMsg tcDisc202 (.discount 20)]) <+:
        (get_completion_loop engineTwoCalls initMsgs 10).messages := by
  have h := get_completion_loop_two_calls_one_turn engineTwoCalls initMsgs 10 0 initMsgs
    tcProd202 tcDisc202
    (.product ⟨"Noise Cancelling Headphones", "High fidelity wireless ANC headphones", mkRat 12999 100⟩)
    (.discount 20) (by decide) rfl (by decide) (by decide)
  exact ⟨by decide, rfl, by decide, by decide, h.1⟩

/-- Counterexample to C6 as stated: a response carrying two
ToolCallRequests whose second names an unregistered tool leads to exactly
one appended tool-role message and an exception — not two messages. -/
theorem get_completion_loop_two_calls_partial_on_unknown :
    (engineMixedCalls 0).tool_calls.length = 2 ∧
      (get_completion_loop engineMixedCalls initMsgs 10).result =
        .dispatchFailure (.keyError "get_weather") ∧
      ((get_completion_loop engineMixedCalls initMsgs 10).messages.filter
        (fun m => m.role == "tool")).length = 1 := by
  decide

/-- C2 (corrected): when every one of the first `max_iterations` responses
carries at least one ToolCallRequest and every requested tool dispatches
successfully, the loop performs exactly `max_iterations` engine calls
(inner tool invocations never counting) and fails with the
max-iterations error instead of returning a message. -/
theorem get_completion_loop_exhausts_budget
    (engine : Nat → EngineMsg) (init : List Message) (N : Nat)
    (hne : ∀ i, i < N → (engine i).tool_calls ≠ [])
    (hdisp : ∀ i, i < N → ∀ tc ∈ (engine i).tool_calls, dispatchOk tc = true) :
    (get_completion_loop engine init N).result = .maxIterationsExceeded ∧
      (get_completion_loop engine init N).engineCalls = N :=
  loopAux_exhaustion N engine init hne hdisp

/-- Witness for C2's theorem: an oracle that always requests a registered
tool exhausts a budget of 3 after exactly 3 engine calls. -/
theorem get_completion_loop_exhausts_budget_witness :
    allResponsesToolCalling engineAlwaysTool 3 = true ∧
      (get_completion_loop engineAlwaysTool initMsgs 3).result = .maxIterationsExceeded ∧
      (get_completion_loop engineAlwaysTool initMsgs 3).engineCalls = 3 := by
  have h := get_completion_loop_exhausts_budget engineAlwaysTool initMsgs 3
    (by decide) (by decide)
  exact ⟨by decide, h.1, h.2⟩

/-- Counterexample to C2 as stated: every response of `engineAlwaysBogus`
carries a ToolCallRequest, yet the run performs only one engine call and
raises a lookup failure instead of the max-iterations error, because the
requested tool name is not in the registry. -/
theorem get_completion_loop_exhaustion_needs_dispatch :
    allResponsesToolCalling engineAlwaysBogus 10 = true ∧
      (get_completion_loop engineAlwaysBogus initMsgs 10).result ≠ .maxIterationsExceeded ∧
      (get_completion_loop engineAlwaysBogus initMsgs 10).engineCalls = 1 := by
  decide

/-- C7 (confirmed): `get_product_info` returns the full backing record for
a present product id — "101" yields the Bluetooth Speaker record — and the
error-shaped payload, not an exception, for every absent id. -/
theorem get_product_info_found_or_error :
    (∀ (pid : String) (p : Product), MOCK_DB.lookup pid = some p →
       get_product_info pid = .product p) ∧
      get_product_info "101" =
        .product ⟨"Bluetooth Speaker", "Portable speaker with deep bass", mkRat 5999 100⟩ ∧
      ∀ (pid : String), MOCK_DB.lookup pid = none →
        get_product_info pid = .errorMsg "Product not found" := by
  refine ⟨?_, by decide, ?_⟩
  · intro pid p h
    unfold get_product_info
    rw [h]
  · intro pid h
    unfold get_product_info
    rw [h]

/-- Witness for C7's theorem at the absent id "999" and the present id
"101". -/
theorem get_product_info_found_or_error_witness :
    MOCK_DB.lookup "999" = none ∧
      get_product_info "999" = .errorMsg "Product not found" ∧
      MOCK_DB.lookup "101" =
        some ⟨"Bluetooth Speaker", "Portable speaker with deep bass", mkRat 5999 100⟩ ∧
      get_product_info "101" =
        .product ⟨"Bluetooth Speaker", "Portable speaker with deep bass", mkRat 5999 100⟩ := by
  have h := get_product_info_found_or_error
  exact ⟨by decide, h.2.2 "999" (by decide), by decide, h.1 "101" _ (by decide)⟩

/-- C8 (confirmed): for a product id absent from `MOCK_DISCOUNTS` — or
stored with a zero discount — `get_discount` returns the success-shaped
zero payload, never an error payload, so unknown products are
indistinguishable from zero-discount ones. -/
theorem get_discount_zero_for_unknown (pid : String)
    (h : MOCK_DISCOUNTS.lookup pid = none ∨ MOCK_DISCOUNTS.lookup pid = some 0) :
    get_discount pid = .discount 0 ∧ ∀ (e : String), get_discount pid ≠ .errorMsg e := by
  rcases h with h | h
  · unfold get_discount
    rw [h]
    exact ⟨rfl, fun e he => ToolResult.noConfusion he⟩
  · unfold get_discount
    rw [h]
    exact ⟨rfl, fun e he => ToolResult.noConfusion he⟩

/-- Witness for C8's theorem at the absent id "999". -/
theorem get_discount_zero_for_unknown_witness :
    MOCK_DISCOUNTS.lookup "999" = none ∧ get_discount "999" = .discount 0 := by
  exact ⟨by decide, (get_discount_zero_for_unknown "999" (Or.inl (by decide))).1⟩

/-- C9 (confirmed): a converged run returns without appending the final
assistant message: the final conversation equals the state of the last
engine call; in particular, on immediate convergence the caller's list is
exactly the one passed in. -/
theorem get_completion_loop_convergence_appends_nothing
    (engine : Nat → EngineMsg) (init : List Message) (N : Nat) :
    (∀ (m : EngineMsg), (get_completion_loop engine init N).result = .converged m →
       ∃ k, (get_completion_loop engine init N).callStates[k]? =
           some (get_completion_loop engine init N).messages ∧
         (get_completion_loop engine init N).engineCalls = k + 1) ∧
      (0 < N → (engine 0).tool_calls = [] →
        (get_completion_loop engine init N).messages = init ∧
          (get_completion_loop engine init N).result = .converged (engine 0)) := by
  constructor
  · intro m hm
    obtain ⟨k, hk1, hk2, -, -⟩ := loopAux_converged_last N engine init m hm
    exact ⟨k, hk1, hk2⟩
  · intro hN h0
    obtain ⟨r2, rfl⟩ : ∃ r2, N = r2 + 1 := ⟨N - 1, by omega⟩
    simp only [get_completion_loop]
    rw [loopAux_succ_conv engine init r2 h0]
    exact ⟨rfl, rfl⟩

/-- Witness for C9's theorem: an immediately converging run leaves the
caller's message list untouched. -/
theorem get_completion_loop_convergence_appends_nothing_witness :
    0 < 10 ∧ (engineClean 0).tool_calls = [] ∧
      (get_completion_loop engineClean initMsgs 10).messages = initMsgs ∧
      (get_completion_loop engineClean initMsgs 10).result = .converged cleanMsg := by
  have h := (get_completion_loop_convergence_appends_nothing engineClean initMsgs 10).2
    (by decide) rfl
  exact ⟨by decide, rfl, h.1, h.2⟩

end HW1

namespace HW3

/-- Accumulating scan behind `pyWords`: `cur` holds the characters of the
word in progress, in reverse. -/
def wordsAux : List Char → List Char → List String
  | [], cur => if cur = [] then [] else [String.mk cur.reverse]
  | c :: rest, cur =>
    if c.isWhitespace then
      if cur = [] then wordsAux rest []
      else String.mk cur.reverse :: wordsAux rest []
    else wordsAux rest (c :: cur)

/-- The word list of `content.split()` in Python: maximal runs of
non-whitespace characters, so leading, trailing or repeated whitespace
contributes no empty words. -/
def pyWords (content : String) : List String :=
  wordsAux content.data []

/-- `word_count` of `analyze_readability` (src/HW3/mcp-server.py line 150). -/
def word_count (content : String) : Nat :=
  (pyWords content).length

/-- `avg_word_length` (line 151): the sum of the word lengths divided by
`max(word_count, 1)`; the source's float division is modelled as exact
rational division. -/
def avg_word_length (content : String) : Rat :=
  (((pyWords content).map String.length).sum : Rat) /
    (((max (word_count content) 1) : Nat) : Rat)

/-- `analyze_readability` (lines 143-160). -/
def analyze_readability (content : String) : String :=
  let wc := word_count content
  let avg := avg_word_length content
  let level := if avg < 6 then "8th grade" else "College"
  let clarity := if avg < 6 then "Good" else "Could be simpler"
  "\nWord Count: " ++ toString wc ++ "\nReading Level: " ++ level ++
    "\nClarity: " ++ clarity ++ "\n"

/-- C10 (confirmed): `analyze_readability` is total — the divisor
`max(word_count, 1)` is never zero on any input — and it always produces a
report string; on the empty string and on whitespace-only input the word
count is 0 and the report is the zero-word report. -/
theorem analyze_readability_total :
    (∀ (content : String), max (word_count content) 1 ≠ 0) ∧
      (∀ (content : String), ∃ lvl cl, analyze_readability content =
        "\nWord Count: " ++ toString (word_count content) ++ "\nReading Level: " ++ lvl ++
          "\nClarity: " ++ cl ++ "\n") ∧
      analyze_readability "" = "\nWord Count: 0\nReading Level: 8th grade\nClarity: Good\n" ∧
      analyze_readability " \t  " =
        "\nWord Count: 0\nReading Level: 8th grade\nClarity: Good\n" := by
  have hempty : pyWords "" = [] := rfl
  have hblank : pyWords " \t  " = [] := rfl
  have havg1 : avg_word_length "" = 0 := by
    simp [avg_word_length, word_count, hempty]
  have havg2 : avg_word_length " \t  " = 0 := by
    simp [avg_word_length, word_count, hblank]
  refine ⟨?_, ?_, ?_, ?_⟩
  · intro content
    have h := Nat.le_max_right (word_count content) 1
    omega
  · intro content
    exact ⟨_, _, rfl⟩
  · simp only [analyze_readability]
    rw [havg1, if_pos (show (0 : Rat) < 6 by norm_num),
      if_pos (show (0 : Rat) < 6 by norm_num)]
    rfl
  · simp only [analyze_readability]
    rw [havg2, if_pos (show (0 : Rat) < 6 by norm_num),
      if_pos (show (0 : Rat) < 6 by norm_num)]
    rfl

end HW3
